import Mathlib

/-!
Verification development for the fertility outcome-projection calculator
(`calculator.py`).  The numeric code is embedded shallowly: Python floats are
modelled as exact ordered-field arithmetic (generic over a
`LinearOrderedField` with a `FloorRing` structure, instantiated at `ℚ` for
computations and at `ℝ` where the source uses transcendental functions), and
Python operations that raise (`ZeroDivisionError`) are modelled with `Option`.
-/

namespace Calculator

/-- `AGE_EXTRA` from the source: look-ahead offsets added to the patient age. -/
def AGE_EXTRA : List ℤ := [0, 1, 3, 5, 7]

/-- `ROUNDS_MAX` from the source. -/
def ROUNDS_MAX : ℕ := 3

section FieldDefs

variable {K : Type} [LinearOrderedField K] [FloorRing K]

/-- `AGE_MIN` from the source. -/
def AGE_MIN : K := 20

/-- `AGE_MAX` from the source. -/
def AGE_MAX : K := 45

/-- `BMI_MIN` from the source. -/
def BMI_MIN : K := 15

/-- `BMI_MAX` from the source. -/
def BMI_MAX : K := 45

/-- `NG_ML_2_PM_L` from the source (1 ng/ml = 7.18 pmol/l). -/
def NG_ML_2_PM_L : K := 718 / 100

/-- `np.clip(x, lo, hi)`: clamp `x` into `[lo, hi]`. -/
def clip (x lo hi : K) : K := max lo (min x hi)

/-- Python 3 `round` on an exact value: round half to even (banker's
rounding), returning an integer. -/
def pyRound (x : K) : ℤ :=
  if x - ⌊x⌋ < 1/2 then ⌊x⌋
  else if 1/2 < x - ⌊x⌋ then ⌊x⌋ + 1
  else if ⌊x⌋ % 2 = 0 then ⌊x⌋ else ⌊x⌋ + 1

/-- Python `round(x, 1)` on an exact value: round half to even at the first
decimal place. -/
def pyRound1 (x : K) : K := (pyRound (10 * x) : K) / 10

/-- `prettify` from the source: `round(prob * 100)`. -/
def prettify (prob : K) : ℤ := pyRound (prob * 100)

/-- `PARAMS_BMI` from the source (`np.polyval` coefficient order: highest
degree first): `[-4.439e-06, 0.0005938, -0.02932, 0.6203, -3.744]`. -/
def PARAMS_BMI : List K :=
  [-(4439 / 1000000000), 5938 / 10000000, -(2932 / 100000), 6203 / 10000, -(3744 / 1000)]

/-- `np.polyval(coeffs, x)`: Horner evaluation, highest-degree
coefficient first. -/
def polyval (coeffs : List K) (x : K) : K :=
  coeffs.foldl (fun acc c => acc * x + c) 0

/-- `bmi_factor` from the source. -/
def bmi_factor (bmi : K) : K := polyval PARAMS_BMI bmi

end FieldDefs

/-- The `Ethnicity` enumeration (from the external `common` module; the
members carrying factors are those keyed in `ETHNICITY_FACTORS`, and
`UNKEYED` stands for any further member, which the source maps to the
default factor 1.0). -/
inductive Ethnicity
  | ASIAN
  | BLACK
  | OTHER
  | UNKEYED
  deriving DecidableEq, Repr

/-- The `InfertilityCondition` enumeration (from the external `common`
module; the members carrying factors are those keyed in the two
`CONDITION_FACTORS_*` tables, and `UNKEYED` stands for any further member,
which the source maps to the default factor 1.0). -/
inductive InfertilityCondition
  | ENDOMETRIOSIS
  | PCOS
  | UNKEYED
  deriving DecidableEq, Repr

section Factors

variable {K : Type} [LinearOrderedField K] [FloorRing K]

/-- `ETHNICITY_FACTORS` from the source, as a total function with the
`.get(p, 1.0)` default applied. -/
def ETHNICITY_FACTORS : Ethnicity → K
  | Ethnicity.ASIAN => 82 / 100
  | Ethnicity.BLACK => 80 / 100
  | Ethnicity.OTHER => 85 / 100
  | Ethnicity.UNKEYED => 1

/-- `CONDITION_FACTORS_BIRTH` from the source, with the `.get(p, 1.0)`
default applied. -/
def CONDITION_FACTORS_BIRTH : InfertilityCondition → K
  | InfertilityCondition.ENDOMETRIOSIS => 80 / 100
  | _ => 1

/-- `CONDITION_FACTORS_EGGS` from the source, with the `.get(p, 1.0)`
default applied. -/
def CONDITION_FACTORS_EGGS : InfertilityCondition → K
  | InfertilityCondition.ENDOMETRIOSIS => 90 / 100
  | InfertilityCondition.PCOS => 120 / 100
  | _ => 1

/-- `factorize` from the source: an empty property list yields `[1.0]`,
otherwise the list of per-property factors. -/
def factorize {E : Type} (props : List E) (factors : E → K) : List K :=
  if props.isEmpty then [1] else props.map factors

/-- `np.mean` of a list. -/
def listMean (l : List K) : K := l.sum / l.length

end Factors

section Attrition

variable {K : Type} [LinearOrderedField K] [FloorRing K]

/-- The non-empty rows of the `ATTRITION` table from the source: for a stage
name, the list of `(age milestone, (low, high))` rate ranges, in increasing
milestone order (`retrieved` and `livebirth` have empty rows). -/
def ATTRITION_RATES (stage : String) : List (K × K × K) :=
  if stage = "frozen" then
    [(30, 75/100, 80/100), (35, 65/100, 70/100), (40, 45/100, 50/100), (45, 20/100, 25/100)]
  else if stage = "thawed" then
    [(30, 85/100, 90/100), (35, 80/100, 85/100), (40, 70/100, 75/100), (45, 55/100, 60/100)]
  else if stage = "fertilized" then
    [(30, 75/100, 80/100), (35, 65/100, 70/100), (40, 55/100, 60/100), (45, 45/100, 50/100)]
  else if stage = "good_embryos" then
    [(30, 45/100, 50/100), (35, 35/100, 40/100), (40, 20/100, 25/100), (45, 10/100, 125/1000)]
  else if stage = "implanted" then
    [(30, 55/100, 60/100), (35, 45/100, 50/100), (40, 35/100, 40/100), (45, 25/100, 275/1000)]
  else []

/-- `np.mean` of a `(low, high)` rate range entry. -/
def rateMean (e : K × K × K) : K := (e.2.1 + e.2.2) / 2

/-- The `for age_lo, age_hi in zip(ages[:-1], ages[1:])` loop of
`get_attrition_rate`: return the first consecutive pair whose upper milestone
exceeds `age`, or the last pair when the loop runs out. -/
def findBracket (lo : K × K × K) : List (K × K × K) → K → ((K × K × K) × (K × K × K))
  | [], _ => (lo, lo)
  | [hi], _ => (lo, hi)
  | hi :: next :: rest, age =>
      if age < hi.1 then (lo, hi) else findBracket hi (next :: rest) age

/-- `get_attrition_rate` from the source.  `none` models the `IndexError`
the source would raise on a stage with an empty rate row (never reached by
`compute_results`). -/
def get_attrition_rate (age : K) (stage : String) : Option K :=
  match ATTRITION_RATES (K := K) stage with
  | [] => none
  | first :: rest =>
    if age ≤ first.1 then some (rateMean first)
    else
      let last := (first :: rest).getLast (by simp)
      if age ≥ last.1 then some (rateMean last)
      else
        let b := findBracket first rest age
        some (rateMean b.1 + (age - b.1.1) / (b.2.1 - b.1.1) * (rateMean b.2 - rateMean b.1))

/-- The `attrition` result record of `compute_results`: the seven stage
quantities, ceil-rounded to integers (except `retrieved`, stored as-is). -/
structure AttritionResult where
  retrieved : ℤ
  frozen : ℤ
  thawed : ℤ
  fertilized : ℤ
  good_embryos : ℤ
  implanted : ℤ
  livebirth : ℤ
  deriving DecidableEq, Repr

/-- The attrition-cascade section of `compute_results` (source lines
157-189): from the first-round egg count `retrieved` and the optional
antral-follicle counts, compute the frozen quantity and propagate it through
the staged attrition rates, applying the BMI/ethnicity/condition multipliers
to `implanted`, and ceil-round the stages into the result record.  `age` and
`bmi` are the already-clamped values from the head of `compute_results`. -/
def attritionSection (age : K) (amh : Option K) (bmi : K)
    (ethnicity : List Ethnicity) (conditions : List InfertilityCondition)
    (retrieved : ℤ) (l_afc r_afc : Option ℤ) : Option AttritionResult := do
  let frozen : K :=
    if l_afc = none ∨ r_afc = none then (retrieved : K)
    else
      let afc : K := ((l_afc.getD 0 + r_afc.getD 0 : ℤ) : K)
      match amh with
      | none => 8/10 * ((retrieved : K) + 2/10 * afc)
      | some amhv =>
        let orpi := amhv * afc / age
        if InfertilityCondition.PCOS ∈ conditions then
          65/100 * (retrieved : K) + 35/100 * orpi * (9/10)
        else
          65/100 * (retrieved : K) + 35/100 * orpi
  let rt ← get_attrition_rate age "thawed"
  let thawed := frozen * rt
  let rf ← get_attrition_rate age "fertilized"
  let fertilized := thawed * rf
  let rg ← get_attrition_rate age "good_embryos"
  let good_embryos := fertilized * rg
  let ri ← get_attrition_rate age "implanted"
  let implanted0 := good_embryos * ri
  let implanted := implanted0 * bmi_factor bmi
      * listMean (factorize ethnicity ETHNICITY_FACTORS)
      * (factorize conditions CONDITION_FACTORS_BIRTH).prod
  let livebirth := implanted * (8/10)
  pure ⟨retrieved, ⌈frozen⌉, ⌈thawed⌉, ⌈fertilized⌉, ⌈good_embryos⌉,
        ⌈implanted⌉, ⌈livebirth⌉⟩

/-- The fixed stage order of the `ATTRITION` table. -/
def STAGE_NAMES : List String :=
  ["retrieved", "frozen", "thawed", "fertilized", "good_embryos", "implanted", "livebirth"]

/-- The stage quantities of an `AttritionResult` in the fixed stage order. -/
def stagesOf (a : AttritionResult) : List ℤ :=
  [a.retrieved, a.frozen, a.thawed, a.fertilized, a.good_embryos, a.implanted, a.livebirth]

/-- The `middle` value of `get_attrition_points`:
`round((l + r) / 2 + min(0.075 * (l - r), 0.25), 1)`. -/
def middleVal (l r : K) : K := pyRound1 ((l + r) / 2 + min (75/1000 * (l - r)) (25/100))

/-- The `left` list of `get_attrition_points`: the stage quantities as
field values, in stage order. -/
def graph_left (a : AttritionResult) : List K :=
  (stagesOf a).map (fun q => (q : K))

/-- The `right` list of `get_attrition_points`: `left[1:] + [left[-1] * 0.9]`. -/
def graph_right (a : AttritionResult) : List K :=
  (graph_left (K := K) a).drop 1 ++ [(a.livebirth : K) * (9/10)]

/-- `get_attrition_points` from the source: per stage, the rounded
`(left, middle, right)` triple, where `right` is the next stage's quantity
(`0.9 ×` the last stage's for the final stage). -/
def get_attrition_points (a : AttritionResult) : List (String × K × K × K) :=
  (STAGE_NAMES.zip ((graph_left a).zip (graph_right a))).map
    (fun e => (e.1, pyRound1 e.2.1, middleVal e.2.1 e.2.2, pyRound1 e.2.2))

end Attrition

section Curves

open Real

/-- `sigmoid` from the source: `a + (b - a) / (1 + exp(-(x - c) * d))`. -/
noncomputable def sigmoid (x a b c d : ℝ) : ℝ :=
  a + (b - a) / (1 + Real.exp (-(x - c) * d))

/-- `amh_decline` from the source. -/
noncomputable def amh_decline (age : ℝ) : ℝ :=
  -(2205/100000) * Real.exp (-(((age - 3057/100) / (1236/100)) ^ 2))

/-- `fix_amh_diff` from the source: single-step midpoint integration of the
decline rate. -/
noncomputable def fix_amh_diff (old_amh old_age new_age : ℝ) : ℝ :=
  old_amh + amh_decline (1/2 * (new_age + old_age)) * (new_age - old_age)

/-- `gompertz` from the source (`A = 0.9`, `K = 4.52`, `T = 0.8`, `S = 0.4`). -/
noncomputable def gompertz (x : ℝ) : ℝ :=
  9/10 * Real.exp (-Real.exp (-(452/100) * (x - 8/10))) + 4/10

/-- `lbr_by_age` from the source: `sigmoid(age, 13, 1.5, 33, 0.5) / 100`. -/
noncomputable def lbr_by_age (age : ℝ) : ℝ :=
  sigmoid age 13 (3/2) 33 (1/2) / 100

/-- `normal_amh` from the source: `sigmoid(age, 4.6, -0.12, 30.5, 0.17)`. -/
noncomputable def normal_amh (age : ℝ) : ℝ :=
  sigmoid age (46/10) (-(12/100)) (305/10) (17/100)

/-- `oocytes_by_age_new` from the source: `sigmoid(age, -1.4, 22, 37, -0.13)`. -/
noncomputable def oocytes_by_age_new (age : ℝ) : ℝ :=
  sigmoid age (-(14/10)) 22 37 (-(13/100))

/-- `oocytes_by_age_old` from the source: `sigmoid(age, 22, 2, 38, 0.41)`. -/
noncomputable def oocytes_by_age_old (age : ℝ) : ℝ :=
  sigmoid age 22 2 38 (41/100)

/-- `clbr_by_age` from the source: `1 - (1 - lbr_by_age(age)) ** oocytes_by_age_old(age)`
(real-exponent power). -/
noncomputable def clbr_by_age (age : ℝ) : ℝ :=
  1 - (1 - lbr_by_age age) ^ oocytes_by_age_old age

end Curves

section Births

/-- The per-round probability pairs of `babies_cycles`: for each round
`n = 1..ROUNDS_MAX`, the pair
`[prettify(1 - (1-p1)^n), prettify(1 - (1-p1)^n - n*(1-p1)^(n-1)*(p1 - p2))]`. -/
noncomputable def babies_rounds (p1 p2 : ℝ) : List (ℤ × ℤ) :=
  (List.range ROUNDS_MAX).map (fun k =>
    (prettify (1 - (1 - p1) ^ (k + 1)),
     prettify (1 - (1 - p1) ^ (k + 1) - (k + 1 : ℕ) * (1 - p1) ^ k * (p1 - p2))))

open scoped Classical in
/-- `babies_cycles` from the source.  When `eggs ≠ 0` the code computes
`a = (1-p1) ** (1/eggs)` (real power) and then divides by `a`; `none`
models the `ZeroDivisionError` (plain floats) / NaN poisoning (numpy
scalars) the source produces when `a == 0`. -/
noncomputable def babies_cycles (p1 : ℝ) (eggs : ℤ) : Option (List (ℤ × ℤ)) :=
  if eggs = 0 then some (babies_rounds p1 0)
  else
    let a : ℝ := (1 - p1) ^ ((1 : ℝ) / (eggs : ℝ))
    if a = 0 then none
    else some (babies_rounds p1 (1 - (1 - p1) * (1 + (eggs : ℝ) * (1 - a) / a)))

open scoped Classical in
/-- The `lbr = 1 - (1 - clbr) ** (1 / eggs_normal)` step of `compute_results`
(source line 153).  `none` models the `ZeroDivisionError` the source raises
on `1 / eggs_normal` when `eggs_normal == 0` (Python 3 true division). -/
noncomputable def per_egg_rate (clbr : ℝ) (eggs_normal : ℤ) : Option ℝ :=
  if eggs_normal = 0 then none
  else some (1 - (1 - clbr) ^ ((1 : ℝ) / (eggs_normal : ℝ)))

end Births

section Pipeline

/-- The AMH ratio fed to the Gompertz transform for round `i` of the egg
loop in `compute_results`: `fix_amh_diff(amh, age, age_i) / normal_amh(age_i)`
with `age_i = clip(age + i, AGE_MIN, AGE_MAX)`.  `age` is the already-clamped
age from the head of `compute_results`. -/
noncomputable def round_ratio (amh age : ℝ) (i : ℕ) : ℝ :=
  fix_amh_diff amh age (clip (age + i) AGE_MIN AGE_MAX) /
    normal_amh (clip (age + i) AGE_MIN AGE_MAX)

/-- The raw (pre-floor) egg count of round `i` of the egg loop in
`compute_results`: `oocytes_by_age_new(age_i) * health_factor_eggs`
scaled by `gompertz` of the AMH ratio. -/
noncomputable def eggs_round_raw (amh age hfe : ℝ) (i : ℕ) : ℝ :=
  oocytes_by_age_new (clip (age + i) AGE_MIN AGE_MAX) * hfe *
    gompertz (round_ratio amh age i)

/-- Running cumulative sums, as accumulated by the egg loop
(`eggs_tot += eggs_i; eggs.append(eggs_tot)`). -/
def cumsum : List ℤ → List ℤ
  | [] => []
  | x :: xs => x :: (cumsum xs).map (x + ·)

/-- The result record of `compute_results`. -/
structure Results where
  age : ℤ
  births : List (ℤ × ℤ)
  eggs : List ℤ
  attrition : AttritionResult
  attrition_graph : List (String × ℚ × ℚ × ℚ)

open scoped Classical in
/-- `compute_results` from the source.  Exact-real reading of the float
pipeline; the attrition cascade runs in `ℚ` (all its arithmetic is rational
in the stage rates once its real inputs are given, so it is kept on the
rational field wherever its inputs are rational; here its real inputs `age`,
`amh` and `bmi` enter only the `frozen` branches and the `implanted`
multipliers, which for the claims below are used through
`attritionSection` over a general linear ordered field).  `none` models the
`ZeroDivisionError` paths (`1 / eggs_normal` with `eggs_normal == 0`, and
division by `a == 0` inside `babies_cycles`). -/
noncomputable def compute_results (age0 amh bmi0 : ℝ)
    (ethnicity : List Ethnicity) (conditions : List InfertilityCondition)
    (l_afc r_afc : Option ℤ) : Option Results := do
  let age := clip age0 AGE_MIN AGE_MAX
  let bmi := clip bmi0 BMI_MIN BMI_MAX
  let hfe := (factorize conditions CONDITION_FACTORS_EGGS).prod
  let eggs_normal : ℤ := ⌊oocytes_by_age_old age * hfe⌋
  let eggsPerRound := (List.range ROUNDS_MAX).map (fun i => ⌊eggs_round_raw amh age hfe i⌋)
  let eggs := cumsum eggsPerRound
  let eggs0 := eggs.headI
  let clbr1 := clbr_by_age age * bmi_factor bmi
      * listMean (factorize ethnicity ETHNICITY_FACTORS)
      * (factorize conditions CONDITION_FACTORS_BIRTH).prod
  let lbr ← per_egg_rate clbr1 eggs_normal
  let clbr := 1 - (1 - lbr) ^ eggs0
  let births ← babies_cycles clbr eggs0
  let attrition ← attritionSection age (some amh) bmi ethnicity conditions eggs0 l_afc r_afc
  pure { age := pyRound age0, births := births, eggs := eggs,
         attrition := attrition,
         attrition_graph := get_attrition_points attrition }

/-- The BMI derivation of `handler` (source lines 317-318): use the supplied
override when present, else `weight / height ** 2` with `height` the
validated integer height in centimetres. -/
def handler_bmi (weight height : ℤ) (bmi : Option ℚ) : ℚ :=
  match bmi with
  | some b => b
  | none => (weight : ℚ) / (height : ℚ) ^ 2

/-- Modelled from the spec: the BMI the spec derives when no override is
supplied — `weight / height²` "using meters", with the height input given
in centimetres. -/
def spec_bmi (weight height_cm : ℚ) : ℚ :=
  weight / (height_cm / 100) ^ 2

/-- The computational tail of `handler` (source lines 317-324, after the
persistence write): derive BMI if absent, normalize AMH units
(pmol/L → ng/mL), pick the AMH projector (`normal_amh` when no measured
AMH, else `fix_amh_diff` anchored at the patient's age), and evaluate
`compute_results` once per look-ahead offset with no antral-follicle
counts.  The handler's `set(...)` conversions of the condition and
ethnicity tag lists are modelled by `List.dedup`. -/
noncomputable def handler_core (age height weight : ℤ)
    (amh_value : Option ℝ) (amh_units : ℤ) (bmi : Option ℚ)
    (condition : List InfertilityCondition) (ethnicity : List Ethnicity) :
    Option (List Results) :=
  let bmiv : ℚ := handler_bmi weight height bmi
  let amh1 : Option ℝ :=
    if amh_units = 1 then amh_value.map (· / NG_ML_2_PM_L) else amh_value
  let famh : ℝ → ℝ := fun ay =>
    match amh1 with
    | none => normal_amh ay
    | some v => fix_amh_diff v (age : ℝ) ay
  AGE_EXTRA.mapM (fun y =>
    compute_results ((age + y : ℤ) : ℝ) (famh ((age + y : ℤ) : ℝ)) ((bmiv : ℚ) : ℝ)
      ethnicity.dedup condition.dedup none none)

end Pipeline

section PyRoundLemmas

variable {K : Type} [LinearOrderedField K] [FloorRing K]

/-- `pyRound` never rounds below the floor. -/
theorem floor_le_pyRound (x : K) : ⌊x⌋ ≤ pyRound x := by
  unfold pyRound
  split_ifs <;> omega

/-- An integer lower bound below the argument bounds `pyRound` below. -/
theorem int_le_pyRound (n : ℤ) (x : K) (h : (n : K) ≤ x) : n ≤ pyRound x :=
  le_trans (Int.le_floor.mpr h) (floor_le_pyRound x)

/-- `pyRound` exceeds its argument by at most one half. -/
theorem pyRound_cast_le (x : K) : (pyRound x : K) ≤ x + 1/2 := by
  unfold pyRound
  have hf : (⌊x⌋ : K) ≤ x := Int.floor_le x
  split_ifs with h1 h2 h3
  · linarith
  · push_neg at h1
    push_cast
    linarith
  · linarith
  · push_neg at h1 h2
    have h2' : x - ⌊x⌋ = 1/2 := le_antisymm h2 h1
    push_cast
    linarith

/-- `pyRound` never exceeds the floor plus one. -/
theorem pyRound_le_floor_add_one (x : K) : pyRound x ≤ ⌊x⌋ + 1 := by
  unfold pyRound
  split_ifs <;> omega

/-- `pyRound` is monotone. -/
theorem pyRound_mono (x y : K) (h : x ≤ y) : pyRound x ≤ pyRound y := by
  rcases lt_or_le ⌊x⌋ ⌊y⌋ with hf | hf
  · calc pyRound x ≤ ⌊x⌋ + 1 := pyRound_le_floor_add_one x
    _ ≤ ⌊y⌋ := hf
    _ ≤ pyRound y := floor_le_pyRound y
  · have hf' : ⌊x⌋ = ⌊y⌋ := le_antisymm (Int.floor_le_floor h) hf
    unfold pyRound
    rw [hf']
    split_ifs <;> first | omega | linarith

/-- Strictly below the next half-integer, `pyRound` stays at or below `n`. -/
theorem pyRound_le_int (n : ℤ) (x : K) (h : x < (n : K) + 1/2) : pyRound x ≤ n := by
  have h1 := pyRound_cast_le x
  have h3 : (pyRound x : K) < ((n + 1 : ℤ) : K) := by push_cast; linarith
  exact Int.lt_add_one_iff.mp (by exact_mod_cast h3)

/-- At or below an even half-integer tie, `pyRound` stays at or below `n`
(banker's rounding sends the tie to the even side). -/
theorem pyRound_le_int_of_even (n : ℤ) (x : K) (h : x ≤ (n : K) + 1/2)
    (he : n % 2 = 0) : pyRound x ≤ n := by
  rcases lt_or_eq_of_le h with h' | h'
  · exact pyRound_le_int n x h'
  · have hfl : ⌊x⌋ = n := by
      rw [h', add_comm, Int.floor_add_int]
      norm_num
    unfold pyRound
    rw [hfl]
    have hd : x - (n : K) = 1/2 := by rw [h']; ring
    rw [hd]
    simp [he]

/-- Evaluation rule: inside `[n, n + 1/2)` the result is `n`. -/
theorem pyRound_eq_of (x : K) (n : ℤ) (h1 : (n:K) ≤ x) (h2 : x < (n:K) + 1/2) :
    pyRound x = n := by
  have hfl : ⌊x⌋ = n := Int.floor_eq_iff.mpr ⟨h1, by linarith⟩
  unfold pyRound
  rw [hfl, if_pos (by linarith)]

/-- Evaluation rule: an odd half-integer tie rounds up to the even side. -/
theorem pyRound_half_odd (n : ℤ) (ho : ¬ n % 2 = 0) : pyRound ((n : K) + 1/2) = n + 1 := by
  have hfl : ⌊(n : K) + 1/2⌋ = n := by
    rw [add_comm, Int.floor_add_int]
    norm_num
  unfold pyRound
  rw [hfl]
  have hd : (n : K) + 1/2 - (n : K) = 1/2 := by ring
  rw [hd]
  simp [ho]

/-- The smoothing bound behind C8: when `left` is an integer and `10·right`
is an integer (as holds for every entry `get_attrition_points` builds from
integer stage quantities), the `middle` value stays between the smaller
neighbour and the larger neighbour plus `0.25`. -/
theorem middleVal_bounds (l r : K) (L R : ℤ) (hl : l = (L : K)) (hr : 10 * r = (R : K)) :
    min l r ≤ middleVal l r ∧ middleVal l r ≤ max l r + 1/4 := by
  subst hl
  set m0 : K := ((L : K) + r) / 2 + min (75/1000 * ((L : K) - r)) (25/100) with hm0
  have hmid : middleVal (L : K) r = (pyRound (10 * m0) : K) / 10 := by
    simp [middleVal, pyRound1, hm0]
  rcases le_total r (L : K) with hc | hc
  · have hmin : min (L : K) r = r := min_eq_right hc
    have hmax : max (L : K) r = (L : K) := max_eq_left hc
    have hlo : r ≤ m0 := by
      have : (0:K) ≤ min (75/1000 * ((L : K) - r)) (25/100) :=
        le_min (by nlinarith) (by norm_num)
      rw [hm0]; nlinarith
    have hhi : m0 ≤ (L : K) + 1/4 := by
      have := min_le_right (75/1000 * ((L : K) - r)) (25/100 : K)
      rw [hm0]; nlinarith
    constructor
    · rw [hmin, hmid]
      have h2 := int_le_pyRound R (10 * m0) (by rw [← hr]; linarith)
      have h3 : (R : K) ≤ (pyRound (10 * m0) : K) := by exact_mod_cast h2
      linarith [hr]
    · rw [hmax, hmid]
      have h1 : 10 * m0 ≤ ((10 * L + 2 : ℤ) : K) + 1/2 := by push_cast; linarith
      have h2 := pyRound_le_int_of_even (10 * L + 2) (10 * m0) h1 (by omega)
      have h3 : (pyRound (10 * m0) : K) ≤ ((10 * L + 2 : ℤ) : K) := by exact_mod_cast h2
      push_cast at h3
      linarith
  · have hmin : min (L : K) r = (L : K) := min_eq_left hc
    have hmax : max (L : K) r = r := max_eq_right hc
    have hmineq : min (75/1000 * ((L : K) - r)) (25/100 : K) = 75/1000 * ((L : K) - r) :=
      min_eq_left (by nlinarith)
    have hlo : (L : K) ≤ m0 := by rw [hm0, hmineq]; nlinarith
    have hhi : m0 ≤ r := by rw [hm0, hmineq]; nlinarith
    constructor
    · rw [hmin, hmid]
      have h2 := int_le_pyRound (10 * L) (10 * m0) (by push_cast; linarith)
      have h3 : ((10 * L : ℤ) : K) ≤ (pyRound (10 * m0) : K) := by exact_mod_cast h2
      push_cast at h3
      linarith
    · rw [hmax, hmid]
      have h2 := pyRound_le_int R (10 * m0) (by rw [← hr]; linarith)
      have h3 : (pyRound (10 * m0) : K) ≤ (R : K) := by exact_mod_cast h2
      rw [← hr] at h3
      linarith

end PyRoundLemmas

section TableLemmas

/-- The zipped `(left, right)` pairs that `get_attrition_points` smooths:
consecutive stage quantities, with the synthetic `0.9 ×` taper at the end. -/
theorem graph_zip_eq {K : Type} [LinearOrderedField K] [FloorRing K] (a : AttritionResult) :
    (graph_left (K := K) a).zip (graph_right a) =
      [((a.retrieved : K), (a.frozen : K)), ((a.frozen : K), (a.thawed : K)),
       ((a.thawed : K), (a.fertilized : K)), ((a.fertilized : K), (a.good_embryos : K)),
       ((a.good_embryos : K), (a.implanted : K)), ((a.implanted : K), (a.livebirth : K)),
       ((a.livebirth : K), (a.livebirth : K) * (9/10))] := rfl

/-- The `thawed` row of the `ATTRITION` table. -/
theorem thawed_row {K : Type} [LinearOrderedField K] [FloorRing K] :
    ATTRITION_RATES (K := K) "thawed" =
    [(30, 85/100, 90/100), (35, 80/100, 85/100), (40, 70/100, 75/100), (45, 55/100, 60/100)] := by
  simp [ATTRITION_RATES]

end TableLemmas

section BoundLemmas

variable {K : Type} [LinearOrderedField K] [FloorRing K]

/-- The BMI quartic never exceeds 1 (its global maximum is ≈ 0.9956 near
BMI 22.6). -/
theorem bmi_factor_le_one (x : K) : bmi_factor x ≤ 1 := by
  simp only [bmi_factor, polyval, PARAMS_BMI, List.foldl_cons, List.foldl_nil]
  nlinarith [sq_nonneg (x^2 - (296900/4439 : K)*x + 990), sq_nonneg (x - 24),
    sq_nonneg (x - 25)]

/-- The BMI quartic is nonnegative on the clamped BMI range `[15, 45]`
(its minimum there is ≈ 0.704 at 45). -/
theorem bmi_factor_nonneg (x : K) (h15 : 15 ≤ x) (h45 : x ≤ 45) : 0 ≤ bmi_factor x := by
  simp only [bmi_factor, polyval, PARAMS_BMI, List.foldl_cons, List.foldl_nil]
  have a15 : (0:K) ≤ x - 15 := by linarith
  have a45 : (0:K) ≤ 45 - x := by linarith
  nlinarith [mul_nonneg (mul_nonneg a15 a45) (sq_nonneg (x - 163730/4439)),
    mul_nonneg a15 a45, a45, a15]

/-- A point-interpolation between two means stays between them. -/
theorem interp_between (age lo hi m1 m2 : K) (h1 : lo ≤ age) (h2 : age < hi)
    (hm : m2 ≤ m1) :
    m2 ≤ m1 + (age - lo)/(hi - lo)*(m2 - m1) ∧
      m1 + (age - lo)/(hi - lo)*(m2 - m1) ≤ m1 := by
  set t : K := (age - lo)/(hi - lo) with ht
  have ht0 : 0 ≤ t := div_nonneg (by linarith) (by linarith)
  have ht1 : t ≤ 1 := (div_le_one (by linarith)).mpr (by linarith)
  constructor
  · nlinarith [mul_nonneg (sub_nonneg.mpr ht1) (sub_nonneg.mpr hm)]
  · nlinarith [mul_nonneg ht0 (sub_nonneg.mpr hm)]

/-- For a four-milestone rate row at ages 30/35/40/45 with means descending
from at most 1 to at least 0, `get_attrition_rate` returns a value in
`[0, 1]` at every age. -/
theorem rate_bounds_of_row (age : K) (stage : String) (a1 b1 a2 b2 a3 b3 a4 b4 : K)
    (hrow : ATTRITION_RATES (K := K) stage =
      [(30, a1, b1), (35, a2, b2), (40, a3, b3), (45, a4, b4)])
    (h4 : 0 ≤ (a4 + b4)/2) (h43 : (a4 + b4)/2 ≤ (a3 + b3)/2)
    (h32 : (a3 + b3)/2 ≤ (a2 + b2)/2) (h21 : (a2 + b2)/2 ≤ (a1 + b1)/2)
    (h1 : (a1 + b1)/2 ≤ 1) :
    ∃ r, get_attrition_rate age stage = some r ∧ 0 ≤ r ∧ r ≤ 1 := by
  unfold get_attrition_rate
  rw [hrow]
  simp only [List.getLast, rateMean]
  rcases le_or_lt age 30 with hc | hc
  · rw [if_pos hc]
    exact ⟨_, rfl, by linarith, by linarith⟩
  · rw [if_neg (not_le.mpr hc)]
    rcases le_or_lt 45 age with hc2 | hc2
    · rw [if_pos hc2]
      exact ⟨_, rfl, by linarith, by linarith⟩
    · rw [if_neg (not_le.mpr hc2)]
      simp only [findBracket]
      rcases lt_or_le age 35 with hc3 | hc3
      · rw [if_pos hc3]
        have h := interp_between age 30 35 ((a1+b1)/2) ((a2+b2)/2) hc.le hc3 h21
        exact ⟨_, rfl, by simp only [rateMean]; linarith [h.1],
          by simp only [rateMean]; linarith [h.2]⟩
      · rw [if_neg (not_lt.mpr hc3)]
        rcases lt_or_le age 40 with hc4 | hc4
        · rw [if_pos hc4]
          have h := interp_between age 35 40 ((a2+b2)/2) ((a3+b3)/2) hc3 hc4 h32
          exact ⟨_, rfl, by simp only [rateMean]; linarith [h.1],
            by simp only [rateMean]; linarith [h.2]⟩
        · rw [if_neg (not_lt.mpr hc4)]
          have h := interp_between age 40 45 ((a3+b3)/2) ((a4+b4)/2) hc4 hc2 h43
          exact ⟨_, rfl, by simp only [rateMean]; linarith [h.1],
            by simp only [rateMean]; linarith [h.2]⟩

/-- The `fertilized` row of the `ATTRITION` table. -/
theorem fertilized_row : ATTRITION_RATES (K := K) "fertilized" =
    [(30, 75/100, 80/100), (35, 65/100, 70/100), (40, 55/100, 60/100),
     (45, 45/100, 50/100)] := by
  simp [ATTRITION_RATES]

/-- The `good_embryos` row of the `ATTRITION` table. -/
theorem good_embryos_row : ATTRITION_RATES (K := K) "good_embryos" =
    [(30, 45/100, 50/100), (35, 35/100, 40/100), (40, 20/100, 25/100),
     (45, 10/100, 125/1000)] := by
  simp [ATTRITION_RATES]

/-- The `implanted` row of the `ATTRITION` table. -/
theorem implanted_row : ATTRITION_RATES (K := K) "implanted" =
    [(30, 55/100, 60/100), (35, 45/100, 50/100), (40, 35/100, 40/100),
     (45, 25/100, 275/1000)] := by
  simp [ATTRITION_RATES]

/-- The thawed-stage rate lies in `[0, 1]` at every age. -/
theorem thawed_rate_bounds (age : K) :
    ∃ r, get_attrition_rate age "thawed" = some r ∧ 0 ≤ r ∧ r ≤ 1 :=
  rate_bounds_of_row age "thawed" _ _ _ _ _ _ _ _ thawed_row
    (by norm_num) (by norm_num) (by norm_num) (by norm_num) (by norm_num)

/-- The fertilized-stage rate lies in `[0, 1]` at every age. -/
theorem fertilized_rate_bounds (age : K) :
    ∃ r, get_attrition_rate age "fertilized" = some r ∧ 0 ≤ r ∧ r ≤ 1 :=
  rate_bounds_of_row age "fertilized" _ _ _ _ _ _ _ _ fertilized_row
    (by norm_num) (by norm_num) (by norm_num) (by norm_num) (by norm_num)

/-- The good-embryos-stage rate lies in `[0, 1]` at every age. -/
theorem good_embryos_rate_bounds (age : K) :
    ∃ r, get_attrition_rate age "good_embryos" = some r ∧ 0 ≤ r ∧ r ≤ 1 :=
  rate_bounds_of_row age "good_embryos" _ _ _ _ _ _ _ _ good_embryos_row
    (by norm_num) (by norm_num) (by norm_num) (by norm_num) (by norm_num)

/-- The implanted-stage rate lies in `[0, 1]` at every age. -/
theorem implanted_rate_bounds (age : K) :
    ∃ r, get_attrition_rate age "implanted" = some r ∧ 0 ≤ r ∧ r ≤ 1 :=
  rate_bounds_of_row age "implanted" _ _ _ _ _ _ _ _ implanted_row
    (by norm_num) (by norm_num) (by norm_num) (by norm_num) (by norm_num)

/-- The mean of a non-empty list of values in `[0, 1]` is in `[0, 1]`. -/
theorem listMean_bounds (l : List K) (hne : l ≠ []) (h : ∀ a ∈ l, 0 ≤ a ∧ a ≤ 1) :
    0 ≤ listMean l ∧ listMean l ≤ 1 := by
  have hlen0 : 0 < l.length := List.length_pos.mpr hne
  have hlen : (0:K) < l.length := by exact_mod_cast hlen0
  have hsum0 : 0 ≤ l.sum := List.sum_nonneg (fun a ha => (h a ha).1)
  have hsum1 : l.sum ≤ (l.length : K) := by
    have := List.sum_le_card_nsmul l 1 (fun a ha => (h a ha).2)
    simpa using this
  exact ⟨div_nonneg hsum0 hlen.le, (div_le_one hlen).mpr hsum1⟩

/-- The product of a list of values in `[0, 1]` is in `[0, 1]`. -/
theorem list_prod_bounds (l : List K) (h : ∀ a ∈ l, 0 ≤ a ∧ a ≤ 1) :
    0 ≤ l.prod ∧ l.prod ≤ 1 := by
  induction l with
  | nil => simp
  | cons x xs ih =>
    simp only [List.prod_cons]
    have hx := h x (by simp)
    have hxs := ih (fun a ha => h a (by simp [ha]))
    exact ⟨mul_nonneg hx.1 hxs.1, by nlinarith [hx.1, hx.2, hxs.1, hxs.2]⟩

/-- `factorize` never returns an empty list (the source defines the empty
property set to contribute `[1.0]`). -/
theorem factorize_ne_nil {E : Type} (l : List E) (F : E → K) : factorize l F ≠ [] := by
  unfold factorize
  split_ifs with h
  · simp
  · simp [List.isEmpty_iff] at h
    simp [h]

/-- The ethnicity-factor mean is in `[0, 1]` for every tag list. -/
theorem eth_mean_bounds (l : List Ethnicity) :
    0 ≤ listMean (factorize (K := K) l ETHNICITY_FACTORS) ∧
    listMean (factorize (K := K) l ETHNICITY_FACTORS) ≤ 1 := by
  apply listMean_bounds _ (factorize_ne_nil l _)
  intro a ha
  unfold factorize at ha
  split_ifs at ha with h
  · simp at ha
    simp [ha]
  · rw [List.mem_map] at ha
    obtain ⟨e, _, rfl⟩ := ha
    cases e <;> norm_num [ETHNICITY_FACTORS]

/-- The condition birth-factor product is in `[0, 1]` for every tag list. -/
theorem cond_prod_bounds (l : List InfertilityCondition) :
    0 ≤ (factorize (K := K) l CONDITION_FACTORS_BIRTH).prod ∧
    (factorize (K := K) l CONDITION_FACTORS_BIRTH).prod ≤ 1 := by
  apply list_prod_bounds
  intro a ha
  unfold factorize at ha
  split_ifs at ha with h
  · simp at ha
    simp [ha]
  · rw [List.mem_map] at ha
    obtain ⟨e, _, rfl⟩ := ha
    cases e <;> norm_num [CONDITION_FACTORS_BIRTH]

end BoundLemmas

section BirthLemmas

/-- `prettify` is monotone. -/
theorem prettify_mono (x y : ℝ) (h : x ≤ y) : prettify x ≤ prettify y :=
  pyRound_mono (x * 100) (y * 100) (by linarith)

/-- In every pair `babies_rounds` emits, the second component (the
correction-adjusted probability) is at most the first, provided
`p1 ≤ 1` and `p2 ≤ p1`. -/
theorem babies_rounds_pairs (p1 p2 : ℝ) (h1 : p1 ≤ 1) (hp : p2 ≤ p1) :
    ∀ p ∈ babies_rounds p1 p2, p.2 ≤ p.1 := by
  intro p hmem
  rw [babies_rounds, List.mem_map] at hmem
  obtain ⟨k, _, hk⟩ := hmem
  rw [← hk]
  refine prettify_mono _ _ ?_
  have hq : (0:ℝ) ≤ 1 - p1 := by linarith
  have hpow : (0:ℝ) ≤ (1 - p1) ^ k := pow_nonneg hq k
  have hterm : (0:ℝ) ≤ (k + 1 : ℕ) * (1 - p1) ^ k * (p1 - p2) := by
    apply mul_nonneg (mul_nonneg (by positivity) hpow)
    linarith
  linarith

/-- Concrete evaluation of `babies_cycles` at `p1 = 1/2`, `eggs = 1`:
`a = 1/2`, `p2 = 0`, and the three rounds give `[[50, 0], [75, 25], [88, 50]]`
(first components `round(100(1-(1/2)^n))`, i.e. 50, 75, 88 — note the banker's
rounding of 87.5 to 88). -/
theorem babies_cycles_half_one :
    babies_cycles (1/2 : ℝ) 1 = some [(50, 0), (75, 25), (88, 50)] := by
  have ha : ((1:ℝ) - 1/2) ^ ((1 : ℝ) / ((1:ℤ) : ℝ)) = 1/2 := by norm_num
  rw [babies_cycles, if_neg (by norm_num : ¬(1:ℤ) = 0)]
  simp only [ha]
  rw [if_neg (by norm_num : ¬(1/2:ℝ) = 0)]
  rw [babies_rounds]
  simp only [ROUNDS_MAX, List.range_succ, List.range_zero, List.nil_append,
    List.cons_append, List.map_cons, List.map_nil, prettify]
  norm_num
  refine ⟨⟨?_, ?_⟩, ⟨?_, ?_⟩, ?_, ?_⟩
  · exact pyRound_eq_of _ 50 (by norm_num) (by norm_num)
  · exact pyRound_eq_of _ 0 (by norm_num) (by norm_num)
  · exact pyRound_eq_of _ 75 (by norm_num) (by norm_num)
  · exact pyRound_eq_of _ 25 (by norm_num) (by norm_num)
  · rw [show (175/2 : ℝ) = ((87:ℤ) : ℝ) + 1/2 by norm_num,
      pyRound_half_odd 87 (by norm_num)]
    norm_num
  · exact pyRound_eq_of _ 50 (by norm_num) (by norm_num)

end BirthLemmas

section RealBounds

/-- A coarse upper bound on `exp 3`. -/
theorem exp_three_lt : Real.exp 3 < 21 := by
  have h1 : Real.exp 1 < 2.7182818286 := Real.exp_one_lt_d9
  have h3 : Real.exp 3 = Real.exp 1 * Real.exp 1 * Real.exp 1 := by
    rw [← Real.exp_add, ← Real.exp_add]
    norm_num
  nlinarith [Real.exp_pos 1]

/-- `normal_amh` is strictly positive for every age at or below the clamp
limit 45 (the sigmoid sits above `4.6 - 4.72/(1 + exp(-2.465)) > 0`). -/
theorem normal_amh_pos (age : ℝ) (h : age ≤ 45) : 0 < normal_amh age := by
  unfold normal_amh sigmoid
  set E := Real.exp (-(age - 305/10) * (17/100)) with hE
  have harg : -(493/200 : ℝ) ≤ -(age - 305/10) * (17/100) := by nlinarith
  have hmono : Real.exp (-(493/200)) ≤ E := Real.exp_le_exp.mpr harg
  have hup : Real.exp (493/200 : ℝ) < 21 :=
    lt_of_le_of_lt (Real.exp_le_exp.mpr (by norm_num)) exp_three_lt
  have hlow : (1/21 : ℝ) < Real.exp (-(493/200)) := by
    rw [Real.exp_neg, inv_eq_one_div, div_lt_div_iff₀ (by norm_num) (Real.exp_pos _)]
    linarith
  have hEgt : (1/21 : ℝ) < E := lt_of_lt_of_le hlow hmono
  have hden : (0:ℝ) < 1 + E := by linarith
  have hq : (46/10 : ℝ) + (-(12/100) - 46/10)/(1 + E) =
      46/10 - (472/100)/(1 + E) := by ring
  rw [hq]
  have : (472/100 : ℝ)/(1 + E) < 46/10 := by
    rw [div_lt_iff₀ hden]
    nlinarith
  linarith

/-- Lower bound `normal_amh 30 ≥ 4.6 - 944/417 ≈ 2.336`, from
`exp(0.085) ≥ 1.085`. -/
theorem normal_amh_30_lb : (46/10 : ℝ) - 944/417 ≤ normal_amh 30 := by
  unfold normal_amh sigmoid
  rw [show (-(30 - 305/10) * (17/100) : ℝ) = 17/200 by norm_num]
  set E := Real.exp (17/200 : ℝ) with hE
  have hEge : (217/200 : ℝ) ≤ E := by
    have := Real.add_one_le_exp (17/200 : ℝ)
    linarith
  have hden : (0:ℝ) < 1 + E := by linarith
  have hq : (46/10 : ℝ) + (-(12/100) - 46/10)/(1 + E) = 46/10 - (472/100)/(1 + E) := by ring
  rw [hq]
  have : (472/100 : ℝ)/(1 + E) ≤ 944/417 := by
    rw [div_le_div_iff₀ hden (by norm_num)]
    nlinarith
  linarith

/-- Upper bound `normal_amh 31 ≤ 4.6 - 102424/41700 ≈ 2.144`, from
`exp(-0.085) ≤ 200/217`. -/
theorem normal_amh_31_ub : normal_amh 31 ≤ (46/10 : ℝ) - 102424/41700 := by
  unfold normal_amh sigmoid
  rw [show (-(31 - 305/10) * (17/100) : ℝ) = -(17/200) by norm_num]
  set E : ℝ := Real.exp (-(17/200) : ℝ) with hE
  have h1 : (217/200 : ℝ) ≤ Real.exp (17/200 : ℝ) := by
    have := Real.add_one_le_exp (17/200 : ℝ)
    linarith
  have hEle : E ≤ 200/217 := by
    rw [hE, Real.exp_neg, inv_eq_one_div, div_le_div_iff₀ (Real.exp_pos _) (by norm_num)]
    nlinarith
  have hEpos : (0:ℝ) < E := Real.exp_pos _
  have hden : (0:ℝ) < 1 + E := by linarith
  have hq : (46/10 : ℝ) + (-(12/100) - 46/10)/(1 + E) = 46/10 - (472/100)/(1 + E) := by ring
  rw [hq]
  have : (102424/41700 : ℝ) ≤ (472/100)/(1 + E) := by
    rw [le_div_iff₀ hden]
    nlinarith
  linarith

/-- The AMH decline rate is bounded below by `-0.02205` (the Gaussian bump
has height at most 1). -/
theorem amh_decline_31_lb : -(2205/100000 : ℝ) ≤ amh_decline (1/2 * (31 + 30)) := by
  unfold amh_decline
  have hz : Real.exp (-(((1/2 * (31 + 30) - 3057/100) / (1236/100) : ℝ)) ^ 2) ≤ 1 := by
    rw [show (1:ℝ) = Real.exp 0 by rw [Real.exp_zero]]
    exact Real.exp_le_exp.mpr (neg_nonpos_of_nonneg (sq_nonneg _))
  have hpos := Real.exp_pos (-(((1/2 * (31 + 30) - 3057/100) / (1236/100) : ℝ)) ^ 2)
  nlinarith

/-- `clip` lands in `[lo, hi]` whenever `lo ≤ hi`. -/
theorem clip_mem (x lo hi : ℝ) (h : lo ≤ hi) : lo ≤ clip x lo hi ∧ clip x lo hi ≤ hi :=
  ⟨le_max_left lo _, max_le h (min_le_right x hi)⟩

/-- A sigmoid with `b < a` stays strictly between its asymptotes `b` and `a`. -/
theorem sigmoid_bounds (x a b c d : ℝ) (h : b < a) :
    b < sigmoid x a b c d ∧ sigmoid x a b c d < a := by
  unfold sigmoid
  have hE : 0 < Real.exp (-(x - c) * d) := Real.exp_pos _
  have hden : (1:ℝ) < 1 + Real.exp (-(x - c) * d) := by linarith
  constructor
  · have hgt : b - a < (b - a) / (1 + Real.exp (-(x - c) * d)) := by
      rw [lt_div_iff₀ (by linarith)]
      nlinarith
    linarith
  · have : (b - a) / (1 + Real.exp (-(x - c) * d)) < 0 :=
      div_neg_of_neg_of_pos (by linarith) (by linarith)
    linarith

/-- The old oocyte curve exceeds 2 at every age (its lower asymptote). -/
theorem oocytes_old_gt_two (x : ℝ) : 2 < oocytes_by_age_old x :=
  (sigmoid_bounds x 22 2 38 (41/100) (by norm_num)).1

/-- The per-age live-birth rate is strictly between 0 and 1. -/
theorem lbr_bounds (x : ℝ) : 0 < lbr_by_age x ∧ lbr_by_age x < 1 := by
  have h := sigmoid_bounds x 13 (3/2) 33 (1/2) (by norm_num)
  unfold lbr_by_age
  constructor <;> nlinarith [h.1, h.2]

/-- The cumulative live-birth rate is in `[0, 1)` at every age. -/
theorem clbr_bounds (x : ℝ) : 0 ≤ clbr_by_age x ∧ clbr_by_age x < 1 := by
  unfold clbr_by_age
  have hl := lbr_bounds x
  have hoo := oocytes_old_gt_two x
  have hbase0 : (0:ℝ) < 1 - lbr_by_age x := by linarith [hl.2]
  have hbase1 : 1 - lbr_by_age x < 1 := by linarith [hl.1]
  have h1 : (0:ℝ) < (1 - lbr_by_age x) ^ oocytes_by_age_old x :=
    Real.rpow_pos_of_pos hbase0 _
  have h2 : (1 - lbr_by_age x) ^ oocytes_by_age_old x ≤ 1 :=
    Real.rpow_le_one hbase0.le hbase1.le (by linarith)
  constructor <;> linarith

end RealBounds

section PipelineLemmas

/-- Without antral-follicle counts the attrition section always succeeds,
with `frozen = ⌈retrieved⌉ = retrieved`. -/
theorem attritionSection_none {K : Type} [LinearOrderedField K] [FloorRing K]
    (age : K) (amh : Option K) (bmi : K)
    (eth : List Ethnicity) (conds : List InfertilityCondition) (retrieved : ℤ) :
    ∃ att, attritionSection age amh bmi eth conds retrieved none none = some att ∧
      att.frozen = att.retrieved ∧ att.retrieved = retrieved := by
  obtain ⟨rt, hrt, -, -⟩ := thawed_rate_bounds (K := K) age
  obtain ⟨rf, hrf, -, -⟩ := fertilized_rate_bounds (K := K) age
  obtain ⟨rg, hrg, -, -⟩ := good_embryos_rate_bounds (K := K) age
  obtain ⟨ri, hri, -, -⟩ := implanted_rate_bounds (K := K) age
  unfold attritionSection
  rw [hrt, hrf, hrg, hri]
  simp only [Option.bind_eq_bind, Option.some_bind, Option.pure_def, or_self, if_true,
    if_pos (Or.inl rfl : (none : Option ℤ) = none ∨ (none : Option ℤ) = none)]
  exact ⟨_, rfl, by simp [Int.ceil_intCast], rfl⟩

/-- Whenever `compute_results` is called without antral-follicle counts and
succeeds, the returned record has `attrition.frozen = attrition.retrieved`. -/
theorem compute_results_frozen_eq (age0 amh bmi0 : ℝ)
    (eth : List Ethnicity) (conds : List InfertilityCondition) (r : Results)
    (hsome : compute_results age0 amh bmi0 eth conds none none = some r) :
    r.attrition.frozen = r.attrition.retrieved := by
  simp only [compute_results, Option.bind_eq_bind'] at hsome
  rw [Option.bind_eq_some] at hsome
  obtain ⟨lbr, hlbr, hsome⟩ := hsome
  rw [Option.bind_eq_some] at hsome
  obtain ⟨births, hbirths, hsome⟩ := hsome
  rw [Option.bind_eq_some] at hsome
  obtain ⟨att, hatt, hsome⟩ := hsome
  simp only [Option.pure_def, Option.some.injEq] at hsome
  subst hsome
  obtain ⟨att', hatt', hfr, hret⟩ := attritionSection_none (K := ℝ)
    (clip age0 AGE_MIN AGE_MAX) (some amh) (clip bmi0 BMI_MIN BMI_MAX) eth conds _
  rw [hatt] at hatt'
  obtain rfl := Option.some_injective _ hatt'
  exact hfr

/-- `babies_cycles` succeeds whenever `p1 < 1` (then `a > 0`, so the
division by `a` is sound). -/
theorem babies_cycles_isSome_of_lt_one (p1 : ℝ) (eggs : ℤ) (h : p1 < 1) :
    ∃ bs, babies_cycles p1 eggs = some bs := by
  unfold babies_cycles
  by_cases he : eggs = 0
  · rw [if_pos he]
    exact ⟨_, rfl⟩
  · rw [if_neg he]
    have ha : (0:ℝ) < (1 - p1) ^ ((1 : ℝ) / ((eggs : ℤ) : ℝ)) :=
      Real.rpow_pos_of_pos (by linarith) _
    rw [if_neg (ne_of_gt ha)]
    exact ⟨_, rfl⟩

/-- The per-egg-rate → multi-round → attrition tail of `compute_results`
succeeds whenever the adjusted CLBR is below 1 and `eggs_normal ≠ 0`. -/
theorem pipeline_some (clbr1 : ℝ) (en eggs0 : ℤ) (age bmi : ℝ) (amh' : Option ℝ)
    (eth : List Ethnicity) (conds : List InfertilityCondition)
    (F : List (ℤ × ℤ) → AttritionResult → Results)
    (hc1 : clbr1 < 1) (hen : en ≠ 0) :
    ∃ r, ((per_egg_rate clbr1 en).bind fun lbr =>
      (babies_cycles (1 - (1 - lbr) ^ eggs0) eggs0).bind fun births =>
      (attritionSection age amh' bmi eth conds eggs0 none none).bind fun att =>
      some (F births att)) = some r := by
  rw [per_egg_rate, if_neg hen, Option.some_bind]
  have hlbr : 0 < (1 - clbr1) ^ ((1:ℝ)/((en:ℤ):ℝ)) := Real.rpow_pos_of_pos (by linarith) _
  have hp1 : 1 - (1 - (1 - (1 - clbr1) ^ ((1:ℝ)/((en:ℤ):ℝ)))) ^ eggs0 < 1 := by
    have hz : (0:ℝ) < (1 - (1 - (1 - clbr1) ^ ((1:ℝ)/((en:ℤ):ℝ)))) ^ eggs0 :=
      zpow_pos (by linarith) _
    linarith
  obtain ⟨bs, hbs⟩ := babies_cycles_isSome_of_lt_one _ eggs0 hp1
  rw [hbs, Option.some_bind]
  obtain ⟨att, hatt, -, -⟩ := attritionSection_none age amh' bmi eth conds eggs0
  rw [hatt, Option.some_bind]
  exact ⟨_, rfl⟩

/-- With no conditions, no ethnicity tags and no antral-follicle counts,
`compute_results` succeeds on every input (no division-by-zero path is
reachable: `eggs_normal ≥ 2` and the adjusted CLBR stays below 1). -/
theorem compute_results_empty_some (age0 amh bmi0 : ℝ) :
    ∃ r, compute_results age0 amh bmi0 [] [] none none = some r := by
  simp only [compute_results, Option.bind_eq_bind', Option.pure_def]
  have hfe : (factorize ([] : List InfertilityCondition)
      (CONDITION_FACTORS_EGGS (K := ℝ))).prod = 1 := by simp [factorize]
  have hoo := oocytes_old_gt_two (clip age0 AGE_MIN AGE_MAX)
  have hen0 : ⌊oocytes_by_age_old (clip age0 AGE_MIN AGE_MAX) *
      (factorize ([] : List InfertilityCondition)
        (CONDITION_FACTORS_EGGS (K := ℝ))).prod⌋ ≠ 0 := by
    rw [hfe, mul_one]
    have h2 : (2:ℤ) ≤ ⌊oocytes_by_age_old (clip age0 AGE_MIN AGE_MAX)⌋ :=
      Int.le_floor.mpr (by push_cast; linarith)
    omega
  have hmean : listMean (factorize ([] : List Ethnicity) (ETHNICITY_FACTORS (K := ℝ))) = 1 := by
    simp [factorize, listMean]
  have hprodb : (factorize ([] : List InfertilityCondition)
      (CONDITION_FACTORS_BIRTH (K := ℝ))).prod = 1 := by simp [factorize]
  have hbf1 : bmi_factor (clip bmi0 BMI_MIN BMI_MAX) ≤ 1 := bmi_factor_le_one _
  have hclbr := clbr_bounds (clip age0 AGE_MIN AGE_MAX)
  have hc1 : clbr_by_age (clip age0 AGE_MIN AGE_MAX) * bmi_factor (clip bmi0 BMI_MIN BMI_MAX) *
      listMean (factorize ([] : List Ethnicity) (ETHNICITY_FACTORS (K := ℝ))) *
      (factorize ([] : List InfertilityCondition)
        (CONDITION_FACTORS_BIRTH (K := ℝ))).prod < 1 := by
    rw [hmean, hprodb, mul_one, mul_one]
    calc clbr_by_age (clip age0 AGE_MIN AGE_MAX) * bmi_factor (clip bmi0 BMI_MIN BMI_MAX)
        ≤ clbr_by_age (clip age0 AGE_MIN AGE_MAX) :=
          mul_le_of_le_one_right hclbr.1 hbf1
      _ < 1 := hclbr.2
  exact pipeline_some _ _ _ _ _ _ _ _ _ hc1 hen0

/-- A successful `mapM` over `Option` sends every output element back to
some input on which the function succeeded with it. -/
theorem mapM_some_mem {α β : Type} (f : α → Option β) :
    ∀ (l : List α) (res : List β), l.mapM f = some res →
      ∀ r ∈ res, ∃ y ∈ l, f y = some r := by
  intro l
  induction l with
  | nil =>
    intro res h r hr
    simp only [List.mapM_nil, Option.pure_def, Option.some.injEq] at h
    subst h
    simp at hr
  | cons x xs ih =>
    intro res h r hr
    rw [List.mapM_cons] at h
    simp only [Option.bind_eq_bind', Option.pure_def] at h
    rw [Option.bind_eq_some] at h
    obtain ⟨y, hy, h⟩ := h
    rw [Option.bind_eq_some] at h
    obtain ⟨ys, hys, h⟩ := h
    obtain rfl := Option.some_injective _ h
    rcases List.mem_cons.mp hr with rfl | hr'
    · exact ⟨x, by simp, hy⟩
    · obtain ⟨z, hz, hfz⟩ := ih ys hys r hr'
      exact ⟨z, by simp [hz], hfz⟩

/-- `mapM` over `Option` succeeds when the function succeeds on every
element. -/
theorem mapM_isSome {α β : Type} (f : α → Option β) :
    ∀ l : List α, (∀ y ∈ l, ∃ b, f y = some b) → ∃ res, l.mapM f = some res := by
  intro l
  induction l with
  | nil =>
    intro _
    exact ⟨[], by simp only [List.mapM_nil, Option.pure_def]⟩
  | cons x xs ih =>
    intro h
    obtain ⟨b, hb⟩ := h x (by simp)
    obtain ⟨res, hres⟩ := ih (fun y hy => h y (by simp [hy]))
    refine ⟨b :: res, ?_⟩
    rw [List.mapM_cons]
    simp only [Option.bind_eq_bind', Option.pure_def, hb, hres, Option.some_bind]

end PipelineLemmas

section Claims

/-- **C1.** The claim says the no-override BMI is `weight / height²` with the
height in meters.  The source divides by the square of the height in
centimetres: at weight 70 kg, height 170 cm it produces `7/2890 ≈ 0.0024`,
not `7000/289 ≈ 24.2`. -/
theorem C1_bmi_missing_unit_conversion :
    handler_bmi 70 170 none = 7/2890 ∧ spec_bmi 70 170 = 7000/289 ∧
    handler_bmi 70 170 none ≠ spec_bmi 70 170 := by
  norm_num [handler_bmi, spec_bmi]

/-- **C5 (counterexample).** At evaluation age 30 with no measured AMH the
handler passes `normal_amh(30)` into `compute_results`, whose round-1
(`i = 1`) Gompertz ratio is
`fix_amh_diff(normal_amh(30), 30, 31) / normal_amh(31)`.  This is not 1:
the numerator exceeds the denominator, because
`normal_amh(30) - normal_amh(31) ≈ 0.19` while the decline correction is
at most `0.02205` in magnitude. -/
theorem C5_later_round_ratio_not_one : round_ratio (normal_amh 30) 30 1 ≠ 1 := by
  have hclip : clip ((30:ℝ) + ((1:ℕ) : ℝ)) AGE_MIN AGE_MAX = 31 := by
    norm_num [clip, AGE_MIN, AGE_MAX]
  unfold round_ratio
  rw [hclip]
  have hD : 0 < normal_amh 31 := normal_amh_pos 31 (by norm_num)
  have hN : normal_amh 31 < fix_amh_diff (normal_amh 30) 30 31 := by
    unfold fix_amh_diff
    have h1 := normal_amh_30_lb
    have h2 := normal_amh_31_ub
    have h3 := amh_decline_31_lb
    nlinarith
  intro heq
  rw [div_eq_one_iff_eq (ne_of_gt hD)] at heq
  linarith

/-- **C5 (amended).** When no measured AMH exists, the handler passes
`normal_amh` evaluated once at the evaluation age into `compute_results`,
which then re-projects it per round with `fix_amh_diff`.  The Gompertz
ratio is exactly 1.0 only for round 0 (and only when the evaluation age
lies inside the clamp range `[20, 45]`); the later rounds' ratios differ
from 1.0 in general (see the counterexample). -/
theorem C5_round0_ratio_one (ay : ℝ) (h1 : 20 ≤ ay) (h2 : ay ≤ 45) :
    round_ratio (normal_amh ay) ay 0 = 1 := by
  have hclip : clip (ay + ((0:ℕ) : ℝ)) AGE_MIN AGE_MAX = ay := by
    rw [Nat.cast_zero, add_zero]
    unfold clip AGE_MIN AGE_MAX
    rw [min_eq_left (by linarith), max_eq_right (by linarith)]
  unfold round_ratio
  rw [hclip]
  have hfix : fix_amh_diff (normal_amh ay) ay ay = normal_amh ay := by
    unfold fix_amh_diff
    ring
  rw [hfix, div_self (ne_of_gt (normal_amh_pos ay h2))]

/-- Witness for the amended C5 at evaluation age 30. -/
theorem C5_round0_ratio_one_witness :
    (20:ℝ) ≤ 30 ∧ (30:ℝ) ≤ 45 ∧ round_ratio (normal_amh 30) 30 0 = 1 :=
  ⟨by norm_num, by norm_num, C5_round0_ratio_one 30 (by norm_num) (by norm_num)⟩

/-- **C6 (counterexample).** With antral-follicle counts and AMH supplied
(age 30, AMH 5, BMI 22, `l_afc = r_afc = 20`, `retrieved = 4`), the
ORPI branch gives `frozen = 0.65·4 + 0.35·(5·40/30) ≈ 4.93`, ceil-rounded
to 5 > 4 = retrieved: the cascade is not non-increasing at the
retrieved → frozen step. -/
theorem C6_attrition_monotone_counterexample :
    ∃ res, attritionSection (30:ℚ) (some 5) 22 [] [] 4 (some 20) (some 20) = some res ∧
      res.retrieved < res.frozen := by
  refine ⟨⟨4, 5, 5, 4, 2, 1, 1⟩, ?_, by norm_num⟩
  simp [attritionSection, get_attrition_rate, ATTRITION_RATES, rateMean, findBracket,
    bmi_factor, PARAMS_BMI, polyval, factorize, listMean]
  norm_num [Int.ceil_eq_iff]

set_option maxHeartbeats 1000000 in
/-- **C6 (amended).** When no antral-follicle counts are supplied (the
only configuration the public handler produces), the attrition quantities
are monotonically non-increasing along the fixed stage order
retrieved ≥ frozen ≥ thawed ≥ fertilized ≥ good_embryos ≥ implanted ≥
livebirth, for every nonnegative retrieved count and clamped BMI; with AFC
supplied, `frozen` may exceed `retrieved` (see the counterexample). -/
theorem C6_attrition_monotone_no_afc {K : Type} [LinearOrderedField K] [FloorRing K]
    (age : K) (amh : Option K) (bmi : K)
    (eth : List Ethnicity) (conds : List InfertilityCondition)
    (retrieved : ℤ) (res : AttritionResult)
    (hr : 0 ≤ retrieved) (hb1 : 15 ≤ bmi) (hb2 : bmi ≤ 45)
    (hsome : attritionSection age amh bmi eth conds retrieved none none = some res) :
    res.frozen ≤ res.retrieved ∧ res.thawed ≤ res.frozen ∧
    res.fertilized ≤ res.thawed ∧ res.good_embryos ≤ res.fertilized ∧
    res.implanted ≤ res.good_embryos ∧ res.livebirth ≤ res.implanted := by
  obtain ⟨rt, hrt, hrt0, hrt1⟩ := thawed_rate_bounds (K := K) age
  obtain ⟨rf, hrf, hrf0, hrf1⟩ := fertilized_rate_bounds (K := K) age
  obtain ⟨rg, hrg, hrg0, hrg1⟩ := good_embryos_rate_bounds (K := K) age
  obtain ⟨ri, hri, hri0, hri1⟩ := implanted_rate_bounds (K := K) age
  unfold attritionSection at hsome
  rw [hrt, hrf, hrg, hri] at hsome
  simp only [Option.bind_eq_bind, Option.some_bind, Option.pure_def, Option.some.injEq,
    or_self, if_true,
    if_pos (Or.inl rfl : (none : Option ℤ) = none ∨ (none : Option ℤ) = none)] at hsome
  subst hsome
  have hF0 : (0:K) ≤ (retrieved : K) := by exact_mod_cast hr
  have hbf0 : 0 ≤ bmi_factor bmi := bmi_factor_nonneg bmi hb1 hb2
  have hbf1 : bmi_factor bmi ≤ 1 := bmi_factor_le_one bmi
  obtain ⟨hm0, hm1⟩ := eth_mean_bounds (K := K) eth
  obtain ⟨hp0, hp1⟩ := cond_prod_bounds (K := K) conds
  have q1 : (0:K) ≤ (retrieved : K) * rt := mul_nonneg hF0 hrt0
  have q2 : (0:K) ≤ (retrieved : K) * rt * rf := mul_nonneg q1 hrf0
  have q3 : (0:K) ≤ (retrieved : K) * rt * rf * rg := mul_nonneg q2 hrg0
  have hs0 : (0:K) ≤ ri * bmi_factor bmi * listMean (factorize eth ETHNICITY_FACTORS) *
      (factorize conds CONDITION_FACTORS_BIRTH).prod :=
    mul_nonneg (mul_nonneg (mul_nonneg hri0 hbf0) hm0) hp0
  have hs1 : ri * bmi_factor bmi * listMean (factorize eth ETHNICITY_FACTORS) *
      (factorize conds CONDITION_FACTORS_BIRTH).prod ≤ 1 :=
    mul_le_one₀ (mul_le_one₀ (mul_le_one₀ hri1 hbf0 hbf1) hm0 hm1) hp0 hp1
  have q4 : (0:K) ≤ (retrieved : K) * rt * rf * rg * ri * bmi_factor bmi *
      listMean (factorize eth ETHNICITY_FACTORS) *
      (factorize conds CONDITION_FACTORS_BIRTH).prod :=
    mul_nonneg (mul_nonneg (mul_nonneg (mul_nonneg q3 hri0) hbf0) hm0) hp0
  refine ⟨?_, ?_, ?_, ?_, ?_, ?_⟩
  · simp [Int.ceil_intCast]
  · exact Int.ceil_le_ceil (by nlinarith [mul_nonneg hF0 (sub_nonneg.mpr hrt1)])
  · exact Int.ceil_le_ceil (by nlinarith [mul_nonneg q1 (sub_nonneg.mpr hrf1)])
  · exact Int.ceil_le_ceil (by nlinarith [mul_nonneg q2 (sub_nonneg.mpr hrg1)])
  · exact Int.ceil_le_ceil (by nlinarith [mul_nonneg q3 (sub_nonneg.mpr hs1)])
  · exact Int.ceil_le_ceil (by nlinarith [q4])

/-- Witness for the amended C6 at age 30, BMI 22, retrieved 10 and no AFC:
the record is `(10, 10, 9, 7, 4, 2, 2)` and the chain holds. -/
theorem C6_attrition_monotone_no_afc_witness :
    ((0:ℤ) ≤ 10 ∧ (15:ℚ) ≤ 22 ∧ (22:ℚ) ≤ 45) ∧
    ((10:ℤ) ≤ 10 ∧ (9:ℤ) ≤ 10 ∧ (7:ℤ) ≤ 9 ∧ (4:ℤ) ≤ 7 ∧ (2:ℤ) ≤ 4 ∧ (2:ℤ) ≤ 2) := by
  have hsome : attritionSection (30:ℚ) none 22 [] [] 10 none none =
      some ⟨10, 10, 9, 7, 4, 2, 2⟩ := by
    simp [attritionSection, get_attrition_rate, ATTRITION_RATES, rateMean, findBracket,
      bmi_factor, PARAMS_BMI, polyval, factorize, listMean]
    norm_num [Int.ceil_eq_iff]
  exact ⟨⟨by norm_num, by norm_num, by norm_num⟩,
    C6_attrition_monotone_no_afc 30 none 22 [] [] 10 ⟨10, 10, 9, 7, 4, 2, 2⟩
      (by norm_num) (by norm_num) (by norm_num) hsome⟩

/-- **C7.** `get_attrition_rate` returns the mean of the milestone range with
clamping at both ends and linear interpolation in between: at `(30, thawed)`
it returns `7/8 = 0.875`, at `(50, thawed)` it returns `23/40 = 0.575`, and
for `30 < age < 35` it returns the linear interpolation between the milestone
means `7/8` (age 30) and `33/40` (age 35). -/
theorem C7_attrition_rate_clamp_and_interpolate :
    get_attrition_rate (30:ℚ) "thawed" = some (7/8) ∧
    get_attrition_rate (50:ℚ) "thawed" = some (23/40) ∧
    ∀ age : ℚ, 30 < age → age < 35 →
      get_attrition_rate age "thawed" = some (7/8 + (age - 30)/(35 - 30) * (33/40 - 7/8)) := by
  refine ⟨by simp [get_attrition_rate, thawed_row, rateMean]; norm_num,
          by simp [get_attrition_rate, thawed_row, rateMean]; norm_num, ?_⟩
  intro age h1 h2
  simp only [get_attrition_rate, thawed_row]
  rw [if_neg (by push_neg; linarith), if_neg ?hgl]
  case hgl => simp only [List.getLast]; push_neg; linarith
  simp only [findBracket, if_pos (show age < (35:ℚ) from h2), rateMean]
  norm_num

/-- Witness for C7: at age 32.5 the interpolated thawed rate is `17/20 = 0.85`. -/
theorem C7_attrition_rate_witness :
    (30:ℚ) < 65/2 ∧ (65/2:ℚ) < 35 ∧
    get_attrition_rate (65/2:ℚ) "thawed" = some (17/20) := by
  refine ⟨by norm_num, by norm_num, ?_⟩
  rw [C7_attrition_rate_clamp_and_interpolate.2.2 (65/2) (by norm_num) (by norm_num)]
  norm_num

/-- **C9.** The public handler never supplies antral-follicle counts to
`compute_results` (its call carries `l_afc = r_afc = none`), so the AFC and
ORPI branches of the frozen computation are unreachable from the public
interface and every returned record satisfies
`attrition['frozen'] == attrition['retrieved']`. -/
theorem C9_handler_frozen_eq_retrieved (age height weight : ℤ)
    (amh_value : Option ℝ) (amh_units : ℤ) (bmi : Option ℚ)
    (condition : List InfertilityCondition) (ethnicity : List Ethnicity)
    (results : List Results)
    (hsome : handler_core age height weight amh_value amh_units bmi condition ethnicity =
      some results) :
    ∀ r ∈ results, r.attrition.frozen = r.attrition.retrieved := by
  intro r hr
  simp only [handler_core] at hsome
  obtain ⟨y, hy, hfy⟩ := mapM_some_mem _ AGE_EXTRA results hsome r hr
  exact compute_results_frozen_eq _ _ _ _ _ r hfy

/-- Witness for C9: a full handler evaluation (age 30, height 170, weight
70, no AMH, no BMI override, no tags) succeeds and every record has
`frozen = retrieved`. -/
theorem C9_handler_frozen_eq_retrieved_witness :
    ∃ rs, handler_core 30 170 70 none 0 none [] [] = some rs ∧
      ∀ r ∈ rs, r.attrition.frozen = r.attrition.retrieved := by
  have hsome : ∃ rs, handler_core 30 170 70 none 0 none [] [] = some rs := by
    simp only [handler_core]
    refine mapM_isSome _ _ ?_
    intro y hy
    simp only [List.dedup_nil]
    norm_num
    exact compute_results_empty_some _ _ _
  obtain ⟨rs, hrs⟩ := hsome
  exact ⟨rs, hrs, C9_handler_frozen_eq_retrieved 30 170 70 none 0 none [] [] rs hrs⟩

/-- **C10.** `fix_amh_diff` is not clamped below at zero: with a measured AMH
of 0.1 at age 20 projected to age 45 it returns a strictly negative value
(which `compute_results` then feeds to the Gompertz ratio unmodified, see
`round_ratio`/`eggs_round_raw`). -/
theorem C10_fix_amh_diff_goes_negative :
    ∃ old_amh old_age new_age : ℝ,
      0 < old_amh ∧ 20 ≤ old_age ∧ old_age < new_age ∧ new_age ≤ 45 ∧
      fix_amh_diff old_amh old_age new_age < 0 := by
  refine ⟨1/10, 20, 45, by norm_num, le_refl _, by norm_num, le_refl _, ?_⟩
  unfold fix_amh_diff amh_decline
  have hz : ((1/2 * ((45:ℝ) + 20) - 3057/100) / (1236/100)) ^ 2 = (193/1236)^2 := by norm_num
  rw [hz]
  have h1 := Real.add_one_le_exp (-((193:ℝ)/1236)^2)
  nlinarith

/-- **C2 (counterexample).** At `p1 = 1/2`, `eggs = 1` the round-1 pair
returned by `babies_cycles` is `[50, 0]`: its first element (claimed to be
the lower bound) strictly exceeds its second.  The pairs are ordered
`[larger, smaller]`, refuting `lower ≤ upper` as the claim reads it. -/
theorem C2_lower_upper_counterexample :
    ∃ l, babies_cycles (1/2 : ℝ) 1 = some l ∧ ∃ p ∈ l, ¬ p.1 ≤ p.2 := by
  refine ⟨[(50, 0), (75, 25), (88, 50)], babies_cycles_half_one, ⟨(50, 0), by simp, by simp⟩⟩

/-- **C2 (amended).** For every `p1 ∈ [0, 1]` and egg count on which
`babies_cycles` returns a value, each returned round pair satisfies
`second ≤ first`: the first element `round(100·(1-(1-p1)^n))` dominates the
second (correction-subtracted) element — the claimed inequality holds with
the two components swapped. -/
theorem C2_pairs_second_le_first (p1 : ℝ) (eggs : ℤ) (l : List (ℤ × ℤ))
    (h0 : 0 ≤ p1) (h1 : p1 ≤ 1) (hsome : babies_cycles p1 eggs = some l) :
    ∀ p ∈ l, p.2 ≤ p.1 := by
  rw [babies_cycles] at hsome
  by_cases he : eggs = 0
  · rw [if_pos he] at hsome
    obtain rfl : babies_rounds p1 0 = l := Option.some_injective _ hsome
    exact babies_rounds_pairs p1 0 h1 h0
  · rw [if_neg he] at hsome
    set a : ℝ := (1 - p1) ^ ((1 : ℝ) / ((eggs : ℤ) : ℝ)) with hadef
    by_cases ha : a = 0
    · rw [if_pos ha] at hsome
      exact absurd hsome (by simp)
    · rw [if_neg ha] at hsome
      obtain rfl : babies_rounds p1 (1 - (1 - p1) * (1 + (eggs : ℝ) * (1 - a) / a)) = l :=
        Option.some_injective _ hsome
      refine babies_rounds_pairs p1 _ h1 ?_
      have hq0 : (0:ℝ) ≤ 1 - p1 := by linarith
      have hq1 : (1 - p1) ≤ 1 := by linarith
      have he' : ((eggs : ℤ) : ℝ) ≠ 0 := Int.cast_ne_zero.mpr he
      have key : 0 ≤ (1 - p1) * ((eggs : ℝ) * (1 - a) / a) := by
        rcases lt_or_gt_of_ne he with hneg | hpos
        · have hE : ((eggs : ℤ) : ℝ) < 0 := by exact_mod_cast hneg
          have hqpos : 0 < 1 - p1 := by
            rcases eq_or_lt_of_le hq0 with h | h
            · exact absurd (by rw [hadef, ← h, Real.zero_rpow (one_div_ne_zero he')]) ha
            · exact h
          have hage : 1 ≤ a := by
            rw [hadef]
            exact Real.one_le_rpow_of_pos_of_le_one_of_nonpos hqpos hq1
              (div_nonpos_of_nonneg_of_nonpos zero_le_one hE.le)
          have hapos : 0 < a := lt_of_lt_of_le one_pos hage
          have hnum : 0 ≤ (eggs : ℝ) * (1 - a) := by nlinarith
          exact mul_nonneg hqpos.le (div_nonneg hnum hapos.le)
        · have hE : (0:ℝ) < ((eggs : ℤ) : ℝ) := by exact_mod_cast hpos
          have ha0 : 0 ≤ a := by rw [hadef]; exact Real.rpow_nonneg hq0 _
          have hapos : 0 < a := lt_of_le_of_ne ha0 (Ne.symm ha)
          have hale : a ≤ 1 := by
            rw [hadef]
            exact Real.rpow_le_one hq0 hq1 (by positivity)
          exact mul_nonneg hq0 (div_nonneg (mul_nonneg hE.le (by linarith)) hapos.le)
      nlinarith [key]

/-- Witness for the amended C2 at `p1 = 1/2`, `eggs = 1`. -/
theorem C2_pairs_second_le_first_witness :
    (0:ℝ) ≤ 1/2 ∧ (1/2:ℝ) ≤ 1 ∧
    ∀ p ∈ [((50:ℤ), (0:ℤ)), (75, 25), (88, 50)], p.2 ≤ p.1 :=
  ⟨by norm_num, by norm_num,
    C2_pairs_second_le_first (1/2) 1 _ (by norm_num) (by norm_num) babies_cycles_half_one⟩

/-- **C3.** The claim says that when `eggs_normal == 0` the per-egg rate is
defined as 0 and the round-1 probabilities short-circuit to 0 with no
division error.  The source has no such branch: `lbr = 1 - (1 - clbr) **
(1 / eggs_normal)` evaluates `1 / eggs_normal` unguarded, which raises
`ZeroDivisionError` when `eggs_normal == 0` (modelled by `none`). -/
theorem C3_zero_eggs_normal_divides_by_zero :
    ∀ clbr : ℝ, per_egg_rate clbr 0 = none := by
  intro clbr
  simp [per_egg_rate]

/-- **C4.** The claim says the division by `a` in `babies_cycles` is guarded
so that `a == 0` falls back to `p2 = p1`.  The source has no guard: at
`p1 = 1`, `eggs = 1` it computes `a = 0` and divides by it
(`ZeroDivisionError` on plain floats, NaN under numpy scalars), modelled by
`none`. -/
theorem C4_babies_cycles_divides_by_zero : babies_cycles (1 : ℝ) 1 = none := by
  have ha : ((1:ℝ) - 1) ^ ((1 : ℝ) / ((1:ℤ) : ℝ)) = 0 := by
    rw [show ((1:ℝ) - 1) = 0 by norm_num]
    exact Real.zero_rpow (by norm_num)
  rw [babies_cycles, if_neg (by norm_num : ¬(1:ℤ) = 0)]
  simp only [ha]
  simp

/-- **C8.** Smoothing invariant: for any `AttritionResult` (integer stage
quantities), each stage's `middle` value produced by `get_attrition_points`
lies between `min(left, right)` and `max(left, right) + 0.25`. -/
theorem C8_middle_between_neighbours (a : AttritionResult) (l r : ℚ)
    (hmem : (l, r) ∈ (graph_left (K := ℚ) a).zip (graph_right a)) :
    min l r ≤ middleVal l r ∧ middleVal l r ≤ max l r + 1/4 := by
  rw [graph_zip_eq] at hmem
  simp only [List.mem_cons, Prod.mk.injEq, List.not_mem_nil, or_false] at hmem
  rcases hmem with ⟨hl, hr⟩ | ⟨hl, hr⟩ | ⟨hl, hr⟩ | ⟨hl, hr⟩ | ⟨hl, hr⟩ | ⟨hl, hr⟩ | ⟨hl, hr⟩
  · exact middleVal_bounds l r a.retrieved (10 * a.frozen) hl (by rw [hr]; push_cast; ring)
  · exact middleVal_bounds l r a.frozen (10 * a.thawed) hl (by rw [hr]; push_cast; ring)
  · exact middleVal_bounds l r a.thawed (10 * a.fertilized) hl (by rw [hr]; push_cast; ring)
  · exact middleVal_bounds l r a.fertilized (10 * a.good_embryos) hl
      (by rw [hr]; push_cast; ring)
  · exact middleVal_bounds l r a.good_embryos (10 * a.implanted) hl
      (by rw [hr]; push_cast; ring)
  · exact middleVal_bounds l r a.implanted (10 * a.livebirth) hl (by rw [hr]; push_cast; ring)
  · exact middleVal_bounds l r a.livebirth (9 * a.livebirth) hl (by rw [hr]; push_cast; ring)

/-- Witness for C8 at a concrete attrition record and the `(frozen, thawed)`
neighbour pair `(10, 9)`. -/
theorem C8_middle_between_neighbours_witness :
    min (10:ℚ) 9 ≤ middleVal (10:ℚ) 9 ∧ middleVal (10:ℚ) 9 ≤ max (10:ℚ) 9 + 1/4 :=
  C8_middle_between_neighbours ⟨10, 10, 9, 7, 4, 2, 2⟩ 10 9
    (by rw [graph_zip_eq]; simp)

end Claims

end Calculator
